import Mathlib

/-!
Shallow embedding of the tercile-probability engine of `regional_mom6`
(`mom6_process.py` and `mom6_regional_tercile.py`), together with theorems
settling the spec claims about it.

Numeric carrier conventions: exact rationals (`ℚ`) stand for the floating
point values flowing through list/array computations that the claims probe
with concrete inputs; real numbers (`ℝ`) stand for values whose definition
needs `sqrt` or a Gaussian cumulative distribution function.  SciPy's
`norm(loc, scale).cdf`, which is undefined (NaN) for `scale ≤ 0`, is
embedded with `Option ℝ` where `none` models NaN.
-/

namespace Mom6

/-! ### File-name matching (`mom6_forecast.mom6_hindcast`, `mom6_forecast.get_mom6`) -/

/-- Python's `p in s` substring test: `pfxAt p s` is the prefix check. -/
def pfxAt : List Char → List Char → Bool
  | [], _ => true
  | _ :: _, [] => false
  | a :: p, b :: s => a = b && pfxAt p s

/-- Python's `p in s` substring test on character lists. -/
def hasSub (p : List Char) : List Char → Bool
  | [] => pfxAt p []
  | b :: s => pfxAt p (b :: s) || hasSub p s

/-- Python's `needle in hay` on strings. -/
def strHas (hay needle : String) : Bool :=
  hasSub needle.toList hay.toList

/-- `mom6_hindcast`: the file list, `tob_forecasts_i{mon}.nc` then
`tos_forecasts_i{mon}.nc` for `mon in range(3,13,3)`, each prefixed by the
directory path. -/
def mom6Hindcast (dir : String) : List String :=
  ([3, 6, 9, 12].map (fun mon => dir ++ "tob_forecasts_i" ++ toString mon ++ ".nc")) ++
  ([3, 6, 9, 12].map (fun mon => dir ++ "tos_forecasts_i" ++ toString mon ++ ".nc"))

/-- The regrid hindcast directory used by `get_mom6` for `source='regrid'`. -/
def regridDir : String := "/Datasets.private/regional_mom6/hindcast/regrid/"

/-- The file-selection loop of `get_mom6`: iterate over the file list, compute
`iyear_flag`, `imon_flag` and `var_flag`, and rebind `ds` whenever
`imon_flag and var_flag` holds (`iyear_flag` is computed but never tested).
`none` models the Python local `ds` never being bound (an
`UnboundLocalError` at the later use), `some f` models `ds` holding the file
opened last. -/
def selectFile (iyear imonth : ℕ) (var : String) : Option String :=
  (mom6Hindcast regridDir).foldl
    (fun ds file =>
      let iyear_flag := strHas file ("i" ++ toString iyear)
      let imon_flag := strHas file ("i" ++ toString imonth)
      let var_flag := strHas file var
      if imon_flag && var_flag then some file else ds)
    none

/-- Number of files of the hindcast list matching a requested
(variable, initialization month) pair under the loop's condition. -/
def matchCount (imonth : ℕ) (var : String) : ℕ :=
  ((mom6Hindcast regridDir).filter
    (fun file => strHas file ("i" ++ toString imonth) && strHas file var)).length

/-! ### Region loop of the Climatological Boundary Builder
(`mom6_regional_tercile.py`, `__main__` region loop)

Grids are cell-indexed lists of rationals; a boolean region mask is its
0/1 indicator list.  `xarray` broadcasting of a scalar against the grid is
modelled by `List.replicate`. -/

/-- Pointwise product of two cell-indexed fields (`xarray` elementwise `*`). -/
def lprod (xs ys : List ℚ) : List ℚ :=
  List.zipWith (· * ·) xs ys

/-- The area-weighted regional mean of a field:
`(da*mask*area).sum() / (mask*area).sum()`. -/
def regionalMean (da mask area : List ℚ) : ℚ :=
  (lprod (lprod da mask) area).sum / (lprod mask area).sum

/-- The Builder's region loop as written: `da` is REASSIGNED to the regional
mean each iteration (`da = (da*mask*area).sum(...)/(mask*area).sum(...)`),
and the next region's computation starts from that scalar, broadcast back
over the grid, instead of from the original gridded field.  Returns the list
of per-region values appended to `reg_tercile_list`. -/
def regionLoop (field : List ℚ) (masks : List (List ℚ)) (area : List ℚ) : List ℚ :=
  (masks.foldl
    (fun (st : List ℚ × List ℚ) mask =>
      let da := st.1
      let m := regionalMean da mask area
      (List.replicate field.length m, st.2 ++ [m]))
    (field, [])).2

/-! ### Lead-Time Binner (`calculate_tercile_prob`, `groupby_bins(..., right=True)`) -/

/-- Arithmetic mean of a list (as `xarray`'s grouped `.mean`). -/
def qmean (xs : List ℚ) : ℚ :=
  xs.sum / xs.length

/-- Values whose lead coordinate falls in the left-open/right-closed interval
`(lo, hi]` (pandas/`xarray` `groupby_bins` with `right=True`). -/
def binMembers (pts : List (ℚ × ℚ)) (lo hi : ℚ) : List ℚ :=
  (pts.filter (fun p => decide (lo < p.1) && decide (p.1 ≤ hi))).map Prod.snd

/-- `groupby_bins('lead', bins, labels=0..len(bins)-2, right=True).mean('lead')`:
one window per consecutive pair of bin edges, each the mean of the values
whose lead lies in `(edge[i], edge[i+1]]`. -/
def groupbyBinsMean (leads vals bins : List ℚ) : List ℚ :=
  (bins.zip bins.tail).map (fun e => qmean (binMembers (leads.zip vals) e.1 e.2))

/-- The 12-point monthly lead axis with values 0..11. -/
def leads12 : List ℚ := [0, 1, 2, 3, 4, 5, 6, 7, 8, 9, 10, 11]

/-! ### Empirical quantile (`.quantile([1./3., 2./3.], dim='allens')`)

`numpy`'s default linear-interpolation quantile: on the sorted sample `a` of
length `n`, the `q`-quantile is `a[⌊h⌋] + (h - ⌊h⌋) * (a[⌈h⌉] - a[⌊h⌋])`
with `h = q * (n-1)`. -/

/-- Linear-interpolation quantile of an already sorted sample. -/
def npQuantileSorted (a : List ℚ) (q : ℚ) : ℚ :=
  let h : ℚ := q * ((a.length : ℚ) - 1)
  let i : ℕ := (Int.floor h).toNat
  let j : ℕ := (Int.ceil h).toNat
  let ai := a.getD i 0
  let aj := a.getD j 0
  ai + (h - (i : ℚ)) * (aj - ai)

/-- `numpy`/`xarray` quantile of a raw pooled sample: sort, then interpolate. -/
def npQuantile (xs : List ℚ) (q : ℚ) : ℚ :=
  npQuantileSorted (xs.insertionSort (· ≤ ·)) q

/-- `f_lowmid`: the empirical 1/3 quantile of the pooled sample
(`da_tercile.isel(quantile=0)`). -/
def f_lowmid (xs : List ℚ) : ℚ :=
  npQuantile xs (1 / 3)

/-- `f_midhigh`: the empirical 2/3 quantile of the pooled sample
(`da_tercile.isel(quantile=1)`). -/
def f_midhigh (xs : List ℚ) : ℚ :=
  npQuantile xs (2 / 3)

/-! ### Ensemble Distribution Estimator (`da_binned.mean('member')`,
`da_binned.std('member')`)

`xarray`'s `.std` reduces with `ddof = 0` by default: the divisor is the
sample size `n`, not `n - 1`. -/

/-- Mean across the member axis, `da_binned.mean('member')`. -/
noncomputable def xrMean (xs : List ℝ) : ℝ :=
  xs.sum / xs.length

/-- `da_binned.std('member')` as the source calls it: `xarray`'s default
`ddof = 0`, i.e. `sqrt((Σ (x - mean)²) / n)`. -/
noncomputable def xrStd (xs : List ℝ) : ℝ :=
  Real.sqrt ((xs.map (fun x => (x - xrMean xs) ^ 2)).sum / xs.length)

/-- Modelled from the spec: "Sample standard deviation (not population) is
used" — the `n - 1` divisor estimator the spec ascribes to the code, for
comparison with `xrStd`. -/
noncomputable def sampleStd (xs : List ℝ) : ℝ :=
  Real.sqrt ((xs.map (fun x => (x - xrMean xs) ^ 2)).sum / ((xs.length : ℝ) - 1))

/-! ### Tercile Probability Calculator (`scipy.stats.norm(...).cdf`, lines
316–328 of `mom6_process.py`)

`scipy.stats.norm(loc, scale)` requires `scale > 0`; for `scale ≤ 0` every
`cdf` evaluation is NaN (scipy's invalid-argument convention), modelled as
`none`. -/

/-- The standard normal cumulative distribution function. -/
noncomputable def stdNormalCdf (x : ℝ) : ℝ :=
  ProbabilityTheory.cdf (ProbabilityTheory.gaussianReal 0 1) x

/-- `scipy.stats.norm(loc=mean, scale=std).cdf(x)`: defined only for a
positive scale; otherwise NaN (`none`). -/
noncomputable def scipyNormCdf (loc scale x : ℝ) : Option ℝ :=
  if 0 < scale then some (stdNormalCdf ((x - loc) / scale)) else none

/-- `da_low_tercile_prob = da_dist.cdf(f_lowmid)`. -/
noncomputable def lowTercileProb (mean std fLowmid : ℝ) : Option ℝ :=
  scipyNormCdf mean std fLowmid

/-- `da_up_tercile_prob = 1 - da_dist.cdf(f_midhigh)` (NaN propagates). -/
noncomputable def upTercileProb (mean std fMidhigh : ℝ) : Option ℝ :=
  (scipyNormCdf mean std fMidhigh).map (fun c => 1 - c)

/-- `da_mid_tercile_prob = 1 - da_up_tercile_prob - da_low_tercile_prob`
(NaN propagates through the subtraction). -/
noncomputable def midTercileProb (mean std fLowmid fMidhigh : ℝ) : Option ℝ :=
  match upTercileProb mean std fMidhigh, lowTercileProb mean std fLowmid with
  | some u, some l => some (1 - u - l)
  | _, _ => none

/-! ### Dominant Category Selector (`idxmax(dim='tercile') * max(dim='tercile')`,
lines 330–341 of `mom6_process.py`)

The concatenated tercile axis carries labels `[-1, 0, 1]` (lower, middle,
upper).  `numpy`'s `argmax`/`idxmax` returns the FIRST occurrence of the
maximum; the scan replaces the running best only on a strictly greater
value. -/

/-- `idxmax` over label/probability pairs: the label of the first pair
attaining the maximum probability. -/
def idxmaxLabel (p : ℚ × ℚ) (rest : List (ℚ × ℚ)) : ℚ :=
  (rest.foldl (fun best q => if best.2 < q.2 then q else best) p).1

/-- The label of the dominant tercile for probabilities `(l, m, u)` on the
label axis `[-1, 0, 1]`. -/
def tercileIdxmax (l m u : ℚ) : ℚ :=
  idxmaxLabel (-1, l) [(0, m), (1, u)]

/-- `da_tercile_prob.max(dim='tercile')`. -/
def tercileMax (l m u : ℚ) : ℚ :=
  max l (max m u)

/-- `da_tercile_prob_max = idxmax * max`: the signed dominant-category
scalar. -/
def tercileProbMax (l m u : ℚ) : ℚ :=
  tercileIdxmax l m u * tercileMax l m u

/-! ## Theorems -/

/-- C10: the file-selection loop of `get_mom6` tests only the month flag and
the variable flag; the computed `iyear_flag` is never used, so two requests
differing only in the initialization year select the same forecast file. -/
theorem C10_selectFile_independent_of_iyear (y1 y2 imonth : ℕ) (var : String) :
    selectFile y1 imonth var = selectFile y2 imonth var :=
  rfl

/-- C8: the selection loop surfaces no typed failures.  With variable `tos`
and month 2 no file matches, so `ds` is never bound (`none`, an
`UnboundLocalError` at the later use, not a `NotFound`); with variable `o`
and month 3 two files match and the loop silently keeps the last match
(the `tos` file) rather than raising an `AmbiguousMatch`. -/
theorem C8_selectFile_untyped_failures :
    selectFile 1993 2 "tos" = none ∧
    matchCount 3 "o" = 2 ∧
    selectFile 1993 3 "o" = some (regridDir ++ "tos_forecasts_i3.nc") := by
  decide

/-- C2: the Builder's region loop reassigns `da`, so the second region's
value is the first region's regional mean, not the second region's own
area-weighted mean.  On the 2-cell grid with field `[1, 3]`, unit areas and
the two single-cell regions, the loop returns `[1, 1]`, while the true
area-weighted means are `[1, 3]`. -/
theorem C2_regionLoop_second_region_corrupted :
    regionLoop [1, 3] [[1, 0], [0, 1]] [1, 1] = [1, 1] ∧
    regionalMean [1, 3] [1, 0] [1, 1] = 1 ∧
    regionalMean [1, 3] [0, 1] [1, 1] = 3 ∧
    regionLoop [1, 3] [[1, 0], [0, 1]] [1, 1] ≠
      [regionalMean [1, 3] [1, 0] [1, 1], regionalMean [1, 3] [0, 1] [1, 1]] := by
  norm_num [regionLoop, regionalMean, lprod, List.replicate]

/-- C3 counterexample: on the 12-point lead axis with values 0..11 and bins
`[0, 3, 6, 9, 12]`, taking the data equal to the lead values, the fourth
window is the mean of the two leads 10 and 11 only (21/2), not the mean of
three consecutive leads 10, 11, 12 (which would be 11). -/
theorem C3_window3_not_mean_of_three :
    groupbyBinsMean leads12 leads12 [0, 3, 6, 9, 12] = [2, 5, 8, 21 / 2] ∧
    (21 / 2 : ℚ) ≠ (10 + 11 + 12) / 3 := by
  norm_num [groupbyBinsMean, binMembers, qmean, leads12]

/-- C3 amended: on the 12-point lead axis 0..11 with bins `[0, 3, 6, 9, 12]`
(`right=True`), the binner yields exactly 4 windows; windows 0–2 average the
three leads in `(0,3]`, `(3,6]`, `(6,9]`, while window 3 averages only the
two leads 10 and 11 in `(9,12]` (lead 12 is not on the axis); lead 0 lies
outside every interval and is excluded from all windows. -/
theorem C3_binning_windows (v : ℕ → ℚ) :
    binMembers (leads12.zip [v 0, v 1, v 2, v 3, v 4, v 5, v 6, v 7, v 8, v 9, v 10, v 11]) 0 3
      = [v 1, v 2, v 3] ∧
    binMembers (leads12.zip [v 0, v 1, v 2, v 3, v 4, v 5, v 6, v 7, v 8, v 9, v 10, v 11]) 9 12
      = [v 10, v 11] ∧
    groupbyBinsMean leads12 [v 0, v 1, v 2, v 3, v 4, v 5, v 6, v 7, v 8, v 9, v 10, v 11]
        [0, 3, 6, 9, 12] =
      [(v 1 + v 2 + v 3) / 3, (v 4 + v 5 + v 6) / 3, (v 7 + v 8 + v 9) / 3,
        (v 10 + v 11) / 2] := by
  norm_num [groupbyBinsMean, binMembers, qmean, leads12]
  ring_nf
  exact ⟨trivial, trivial, trivial⟩

/-- C1: for every cell and lead window with a well-defined Gaussian fit
(positive spread) and monotonic boundaries, the three tercile probabilities
are defined and `lower + middle + upper = 1` exactly — in particular within
`1e-9` — because the middle probability is defined as
`1 - upper_prob - lower_prob`. -/
theorem C1_tercile_prob_sum_one (mean std f1 f2 : ℝ) (hstd : 0 < std) (hmono : f1 ≤ f2) :
    ∃ l m u : ℝ,
      lowTercileProb mean std f1 = some l ∧
      midTercileProb mean std f1 f2 = some m ∧
      upTercileProb mean std f2 = some u ∧
      l + m + u = 1 ∧ |l + m + u - 1| ≤ 1e-9 := by
  refine ⟨stdNormalCdf ((f1 - mean) / std),
    stdNormalCdf ((f2 - mean) / std) - stdNormalCdf ((f1 - mean) / std),
    1 - stdNormalCdf ((f2 - mean) / std), ?_, ?_, ?_, by ring, ?_⟩
  · simp [lowTercileProb, scipyNormCdf, hstd]
  · simp [midTercileProb, upTercileProb, lowTercileProb, scipyNormCdf, hstd]
  · simp [upTercileProb, scipyNormCdf, hstd]
  · norm_num

/-- Witness for C1 at the concrete fit `mean = 0`, `std = 1` and boundaries
`f_lowmid = 0 ≤ f_midhigh = 1`. -/
theorem C1_tercile_prob_sum_one_witness :
    (0 : ℝ) < 1 ∧ (0 : ℝ) ≤ 1 ∧
    (∃ l m u : ℝ,
      lowTercileProb 0 1 0 = some l ∧
      midTercileProb 0 1 0 1 = some m ∧
      upTercileProb 0 1 1 = some u ∧
      l + m + u = 1 ∧ |l + m + u - 1| ≤ 1e-9) :=
  ⟨by norm_num, by norm_num,
    C1_tercile_prob_sum_one 0 1 0 1 (by norm_num) (by norm_num)⟩

/-- C6 counterexample: for 10 members all equal to 5.0 the member standard
deviation is 0, and with boundaries `f_lowmid = 3`, `f_midhigh = 7` all
three tercile probabilities are NaN (`none`) — the computation propagates an
undefined value instead of returning the deterministic triple
(lower = 0, middle = 1, upper = 0) the claim requires. -/
theorem C6_degenerate_spread_propagates_nan :
    xrStd [5, 5, 5, 5, 5, 5, 5, 5, 5, (5 : ℝ)] = 0 ∧
    lowTercileProb (xrMean [5, 5, 5, 5, 5, 5, 5, 5, 5, (5 : ℝ)])
      (xrStd [5, 5, 5, 5, 5, 5, 5, 5, 5, (5 : ℝ)]) 3 = none ∧
    upTercileProb (xrMean [5, 5, 5, 5, 5, 5, 5, 5, 5, (5 : ℝ)])
      (xrStd [5, 5, 5, 5, 5, 5, 5, 5, 5, (5 : ℝ)]) 7 = none ∧
    midTercileProb (xrMean [5, 5, 5, 5, 5, 5, 5, 5, 5, (5 : ℝ)])
      (xrStd [5, 5, 5, 5, 5, 5, 5, 5, 5, (5 : ℝ)]) 3 7 = none := by
  have hm : xrMean [5, 5, 5, 5, 5, 5, 5, 5, 5, (5 : ℝ)] = 5 := by
    simp [xrMean]
    norm_num
  have hs : xrStd [5, 5, 5, 5, 5, 5, 5, 5, 5, (5 : ℝ)] = 0 := by
    have harg :
        (([5, 5, 5, 5, 5, 5, 5, 5, 5, (5 : ℝ)].map
            (fun x => (x - xrMean [5, 5, 5, 5, 5, 5, 5, 5, 5, (5 : ℝ)]) ^ 2)).sum /
          ([5, 5, 5, 5, 5, 5, 5, 5, 5, (5 : ℝ)].length : ℝ)) = 0 := by
      rw [hm]; norm_num
    unfold xrStd
    rw [harg, Real.sqrt_zero]
  refine ⟨hs, ?_, ?_, ?_⟩ <;>
    simp [lowTercileProb, upTercileProb, midTercileProb, scipyNormCdf, hs]

/-- C6 amended: when the ensemble spread is degenerate (standard deviation
≤ 0, in particular all members equal), the computation does not raise but
deterministically yields NaN (`none`) for all three tercile probabilities:
`scipy.stats.norm` treats `scale = 0` as an invalid argument, and the NaN
propagates; no zero-variance convention such as (0, 1, 0) is implemented. -/
theorem C6_zero_spread_nan (mean std f1 f2 : ℝ) (hstd : std ≤ 0) :
    lowTercileProb mean std f1 = none ∧
    upTercileProb mean std f2 = none ∧
    midTercileProb mean std f1 f2 = none := by
  simp [lowTercileProb, upTercileProb, midTercileProb, scipyNormCdf, not_lt.mpr hstd]

/-- Witness for C6 amended at `mean = 5`, `std = 0`, boundaries 3 and 7. -/
theorem C6_zero_spread_nan_witness :
    (0 : ℝ) ≤ 0 ∧
    (lowTercileProb 5 0 3 = none ∧
     upTercileProb 5 0 7 = none ∧
     midTercileProb 5 0 3 7 = none) :=
  ⟨le_refl 0, C6_zero_spread_nan 5 0 3 7 (le_refl 0)⟩

/-- C4 counterexample: with probabilities (0.2, 0.6, 0.2) the middle
category dominates, `tercile_prob_max = 0 * 0.6 = 0`, and its absolute value
0 does not equal the maximum probability 0.6. -/
theorem C4_middle_dominant_magnitude_lost :
    tercileProbMax (2 / 10) (6 / 10) (2 / 10) = 0 ∧
    tercileMax (2 / 10) (6 / 10) (2 / 10) = 6 / 10 ∧
    |tercileProbMax (2 / 10) (6 / 10) (2 / 10)| ≠ tercileMax (2 / 10) (6 / 10) (2 / 10) := by
  norm_num [tercileProbMax, tercileIdxmax, idxmaxLabel, tercileMax]

/-- C4 amended: `tercile_prob_max` equals the dominant label times the
maximum probability, so its absolute value is `|label| * max` — equal to the
maximum probability when an outer tercile (-1 or +1) dominates, but 0 when
the middle category (label 0) dominates — and its sign matches the label:
zero for a dominant middle, positive for upper, negative for lower. -/
theorem C4_prob_max_signed (l m u : ℚ) (hl : 0 ≤ l) (hm : 0 ≤ m) (hu : 0 ≤ u)
    (hsum : l + m + u = 1) :
    tercileProbMax l m u = tercileIdxmax l m u * tercileMax l m u ∧
    |tercileProbMax l m u| = |tercileIdxmax l m u| * tercileMax l m u ∧
    (tercileIdxmax l m u = -1 ∨ tercileIdxmax l m u = 0 ∨ tercileIdxmax l m u = 1) ∧
    (tercileIdxmax l m u = 0 → tercileProbMax l m u = 0) ∧
    (tercileIdxmax l m u = 1 → 0 < tercileProbMax l m u) ∧
    (tercileIdxmax l m u = -1 → tercileProbMax l m u < 0) := by
  have hlM : l ≤ tercileMax l m u := by unfold tercileMax; exact le_max_left _ _
  have hmM : m ≤ tercileMax l m u := by
    unfold tercileMax; exact le_trans (le_max_left m u) (le_max_right l (max m u))
  have huM : u ≤ tercileMax l m u := by
    unfold tercileMax; exact le_trans (le_max_right m u) (le_max_right l (max m u))
  have hMpos : 0 < tercileMax l m u := by linarith
  have hlab : tercileIdxmax l m u = -1 ∨ tercileIdxmax l m u = 0 ∨ tercileIdxmax l m u = 1 := by
    simp only [tercileIdxmax, idxmaxLabel, List.foldl]
    split_ifs <;> simp
  refine ⟨rfl, ?_, hlab, ?_, ?_, ?_⟩
  · unfold tercileProbMax
    rw [abs_mul, abs_of_nonneg (le_of_lt hMpos)]
  · intro h0; unfold tercileProbMax; rw [h0, zero_mul]
  · intro h1p; unfold tercileProbMax; rw [h1p, one_mul]; exact hMpos
  · intro hneg; unfold tercileProbMax; rw [hneg]; linarith

/-- Witness for C4 amended at the probability triple (1/2, 1/4, 1/4). -/
theorem C4_prob_max_signed_witness :
    (0 : ℚ) ≤ 1 / 2 ∧ (0 : ℚ) ≤ 1 / 4 ∧ (0 : ℚ) ≤ 1 / 4 ∧
    (1 / 2 + 1 / 4 + 1 / 4 : ℚ) = 1 ∧
    (tercileProbMax (1 / 2) (1 / 4) (1 / 4)
        = tercileIdxmax (1 / 2) (1 / 4) (1 / 4) * tercileMax (1 / 2) (1 / 4) (1 / 4) ∧
      |tercileProbMax (1 / 2) (1 / 4) (1 / 4)|
        = |tercileIdxmax (1 / 2) (1 / 4) (1 / 4)| * tercileMax (1 / 2) (1 / 4) (1 / 4) ∧
      (tercileIdxmax (1 / 2) (1 / 4) (1 / 4) = -1 ∨
        tercileIdxmax (1 / 2) (1 / 4) (1 / 4) = 0 ∨
        tercileIdxmax (1 / 2) (1 / 4) (1 / 4) = 1) ∧
      (tercileIdxmax (1 / 2) (1 / 4) (1 / 4) = 0 →
        tercileProbMax (1 / 2) (1 / 4) (1 / 4) = 0) ∧
      (tercileIdxmax (1 / 2) (1 / 4) (1 / 4) = 1 →
        0 < tercileProbMax (1 / 2) (1 / 4) (1 / 4)) ∧
      (tercileIdxmax (1 / 2) (1 / 4) (1 / 4) = -1 →
        tercileProbMax (1 / 2) (1 / 4) (1 / 4) < 0)) :=
  ⟨by norm_num, by norm_num, by norm_num, by norm_num,
    C4_prob_max_signed (1 / 2) (1 / 4) (1 / 4)
      (by norm_num) (by norm_num) (by norm_num) (by norm_num)⟩

/-- C9: the selector's `idxmax` is the first-occurring maximum over the
fixed label sequence [-1, 0, 1]: it returns -1 exactly when the lower
probability attains the maximum, 0 when the middle attains it but the lower
does not, and 1 otherwise — so ties are broken deterministically in
sequence order. -/
theorem C9_idxmax_first_occurrence (l m u : ℚ) :
    tercileIdxmax l m u =
      if l = tercileMax l m u then -1 else if m = tercileMax l m u then 0 else 1 := by
  have huM : u ≤ tercileMax l m u := by
    unfold tercileMax; exact le_trans (le_max_right m u) (le_max_right l (max m u))
  by_cases h1 : l < m
  · by_cases h2 : m < u
    · have hLHS : tercileIdxmax l m u = 1 := by
        simp [tercileIdxmax, idxmaxLabel, h1, h2]
      have hlne : l ≠ tercileMax l m u := ne_of_lt (lt_of_lt_of_le (lt_trans h1 h2) huM)
      have hmne : m ≠ tercileMax l m u := ne_of_lt (lt_of_lt_of_le h2 huM)
      rw [hLHS, if_neg hlne, if_neg hmne]
    · have hLHS : tercileIdxmax l m u = 0 := by
        simp [tercileIdxmax, idxmaxLabel, h1, h2]
      have hMm : tercileMax l m u = m := by
        unfold tercileMax
        exact le_antisymm (max_le (le_of_lt h1) (max_le le_rfl (not_lt.mp h2)))
          (le_trans (le_max_left m u) (le_max_right l (max m u)))
      have hlne : l ≠ tercileMax l m u := by rw [hMm]; exact ne_of_lt h1
      rw [hLHS, if_neg hlne, if_pos hMm.symm]
  · by_cases h2 : l < u
    · have hLHS : tercileIdxmax l m u = 1 := by
        simp [tercileIdxmax, idxmaxLabel, h1, h2]
      have hlne : l ≠ tercileMax l m u := ne_of_lt (lt_of_lt_of_le h2 huM)
      have hmne : m ≠ tercileMax l m u :=
        ne_of_lt (lt_of_lt_of_le (lt_of_le_of_lt (not_lt.mp h1) h2) huM)
      rw [hLHS, if_neg hlne, if_neg hmne]
    · have hLHS : tercileIdxmax l m u = -1 := by
        simp [tercileIdxmax, idxmaxLabel, h1, h2]
      have hMl : tercileMax l m u = l := by
        unfold tercileMax
        exact le_antisymm (max_le le_rfl (max_le (not_lt.mp h1) (not_lt.mp h2)))
          (le_max_left _ _)
      rw [hLHS, if_pos hMl.symm]

/-- C5 counterexample: on the two-member sample [0, 2] the source's
`.std('member')` (xarray default `ddof = 0`, divisor n) gives 1, while the
sample standard deviation (divisor n-1) the claim asserts gives √2 — they
differ. -/
theorem C5_std_not_sample :
    xrStd [0, 2] ≠ sampleStd [0, 2] := by
  have hm : xrMean [0, (2 : ℝ)] = 1 := by
    simp [xrMean]
  have h1 : xrStd [0, (2 : ℝ)] = 1 := by
    have harg : (([0, (2 : ℝ)].map (fun x => (x - xrMean [0, (2 : ℝ)]) ^ 2)).sum /
        ([0, (2 : ℝ)].length : ℝ)) = 1 := by
      rw [hm]; norm_num
    unfold xrStd
    rw [harg, Real.sqrt_one]
  have h2 : sampleStd [0, (2 : ℝ)] = Real.sqrt 2 := by
    have harg : (([0, (2 : ℝ)].map (fun x => (x - xrMean [0, (2 : ℝ)]) ^ 2)).sum /
        (([0, (2 : ℝ)].length : ℝ) - 1)) = 2 := by
      rw [hm]; norm_num
    unfold sampleStd
    rw [harg]
  rw [h1, h2]
  intro h
  have hlt : (1 : ℝ) < Real.sqrt 2 := by
    rw [show (1 : ℝ) = Real.sqrt 1 from (Real.sqrt_one).symm]
    exact Real.sqrt_lt_sqrt (by norm_num) (by norm_num)
  linarith [hlt]

/-- C5 amended: the Ensemble Distribution Estimator computes the POPULATION
standard deviation (xarray's default `ddof = 0`, divisor n), not the sample
standard deviation: for any sample of at least two members the two are
related by `sampleStd² * (n - 1) = xrStd² * n`. -/
theorem C5_std_is_population (xs : List ℝ) (hlen : 2 ≤ xs.length) :
    (sampleStd xs) ^ 2 * ((xs.length : ℝ) - 1) = (xrStd xs) ^ 2 * (xs.length : ℝ) := by
  have hS : 0 ≤ (xs.map (fun x => (x - xrMean xs) ^ 2)).sum :=
    List.sum_nonneg (by
      intro a ha
      obtain ⟨x, hx, rfl⟩ := List.mem_map.mp ha
      positivity)
  have hn : (0 : ℝ) < (xs.length : ℝ) := by
    have h : 0 < xs.length := lt_of_lt_of_le (by norm_num) hlen
    exact_mod_cast h
  have hn1 : (0 : ℝ) < (xs.length : ℝ) - 1 := by
    have h : (2 : ℝ) ≤ (xs.length : ℝ) := by exact_mod_cast hlen
    linarith
  unfold sampleStd xrStd
  rw [Real.sq_sqrt (div_nonneg hS (le_of_lt hn1)), Real.sq_sqrt (div_nonneg hS (le_of_lt hn))]
  field_simp

/-- Witness for C5 amended on the sample [0, 2]. -/
theorem C5_std_is_population_witness :
    2 ≤ ([0, (2 : ℝ)]).length ∧
    (sampleStd [0, (2 : ℝ)]) ^ 2 * ((([0, (2 : ℝ)]).length : ℝ) - 1)
      = (xrStd [0, (2 : ℝ)]) ^ 2 * (([0, (2 : ℝ)]).length : ℝ) :=
  ⟨by simp, C5_std_is_population [0, (2 : ℝ)] (by simp)⟩

/-- In a sorted list, entries at increasing positions are increasing. -/
theorem sortedGetDMono (a : List ℚ) (hs : a.Sorted (· ≤ ·)) {i j : ℕ} (hij : i ≤ j)
    (hj : j < a.length) : a.getD i 0 ≤ a.getD j 0 := by
  have hi : i < a.length := lt_of_le_of_lt hij hj
  rw [List.getD_eq_getElem a 0 hi, List.getD_eq_getElem a 0 hj]
  have h := hs.rel_get_of_le (a := ⟨i, hi⟩) (b := ⟨j, hj⟩) (by exact hij)
  simpa using h

/-- On a sorted list, the interpolated quantile value lies between its two
neighbouring order statistics. -/
theorem interpBounds (a : List ℚ) (hs : a.Sorted (· ≤ ·)) (h : ℚ) (h0 : 0 ≤ h)
    (hub : h ≤ (a.length : ℚ) - 1) :
    a.getD (Int.floor h).toNat 0 ≤
      a.getD (Int.floor h).toNat 0 + (h - ((Int.floor h).toNat : ℚ)) *
        (a.getD (Int.ceil h).toNat 0 - a.getD (Int.floor h).toNat 0) ∧
    a.getD (Int.floor h).toNat 0 + (h - ((Int.floor h).toNat : ℚ)) *
        (a.getD (Int.ceil h).toNat 0 - a.getD (Int.floor h).toNat 0) ≤
      a.getD (Int.ceil h).toNat 0 := by
  have hn1 : (1 : ℚ) ≤ (a.length : ℚ) := by linarith
  have hn : 1 ≤ a.length := by exact_mod_cast hn1
  have hfl0 : 0 ≤ ⌊h⌋ := Int.floor_nonneg.mpr h0
  have hicast : ((⌊h⌋.toNat : ℕ) : ℚ) = ((⌊h⌋ : ℤ) : ℚ) := by
    exact_mod_cast congrArg (fun z : ℤ => (z : ℚ)) (Int.toNat_of_nonneg hfl0)
  have hg0 : 0 ≤ h - (⌊h⌋.toNat : ℚ) := by
    rw [hicast]; linarith [Int.floor_le h]
  have hg1 : h - (⌊h⌋.toNat : ℚ) ≤ 1 := by
    rw [hicast]; linarith [Int.lt_floor_add_one h]
  have hij : ⌊h⌋.toNat ≤ ⌈h⌉.toNat := Int.toNat_le_toNat (Int.floor_le_ceil h)
  have hcle : ⌈h⌉ ≤ (a.length : ℤ) - 1 := by
    rw [Int.ceil_le]
    push_cast
    linarith
  have hjlt : ⌈h⌉.toNat < a.length := by omega
  have hgap : a.getD ⌊h⌋.toNat 0 ≤ a.getD ⌈h⌉.toNat 0 := sortedGetDMono a hs hij hjlt
  constructor
  · nlinarith [mul_nonneg hg0 (sub_nonneg.mpr hgap)]
  · nlinarith [mul_nonneg (by linarith : (0:ℚ) ≤ 1 - (h - (⌊h⌋.toNat : ℚ)))
      (sub_nonneg.mpr hgap)]

/-- The linear-interpolation quantile of a sorted sample is monotone in the
quantile level. -/
theorem npQuantileSortedMono (a : List ℚ) (hs : a.Sorted (· ≤ ·)) (hn : 1 ≤ a.length)
    (q1 q2 : ℚ) (hq0 : 0 ≤ q1) (hq12 : q1 ≤ q2) (hq1 : q2 ≤ 1) :
    npQuantileSorted a q1 ≤ npQuantileSorted a q2 := by
  simp only [npQuantileSorted]
  have hnQ : (1 : ℚ) ≤ (a.length : ℚ) := by exact_mod_cast hn
  have hd : (0 : ℚ) ≤ (a.length : ℚ) - 1 := by linarith
  set h1 := q1 * ((a.length : ℚ) - 1) with hh1def
  set h2 := q2 * ((a.length : ℚ) - 1) with hh2def
  have h10 : 0 ≤ h1 := mul_nonneg hq0 hd
  have h12 : h1 ≤ h2 := mul_le_mul_of_nonneg_right hq12 hd
  have h20 : 0 ≤ h2 := le_trans h10 h12
  have h2ub : h2 ≤ (a.length : ℚ) - 1 := by
    calc h2 ≤ 1 * ((a.length : ℚ) - 1) := mul_le_mul_of_nonneg_right hq1 hd
    _ = (a.length : ℚ) - 1 := one_mul _
  have h1ub : h1 ≤ (a.length : ℚ) - 1 := le_trans h12 h2ub
  obtain ⟨B1l, B1u⟩ := interpBounds a hs h1 h10 h1ub
  obtain ⟨B2l, B2u⟩ := interpBounds a hs h2 h20 h2ub
  by_cases hc : ⌈h1⌉ ≤ ⌊h2⌋
  · have hi2le : ⌊h2⌋ ≤ (a.length : ℤ) - 1 := by
      have hfl : ((⌊h2⌋ : ℤ) : ℚ) ≤ h2 := Int.floor_le h2
      have hflub : ((⌊h2⌋ : ℤ) : ℚ) ≤ (a.length : ℚ) - 1 := le_trans hfl h2ub
      exact_mod_cast (by push_cast at hflub ⊢; linarith :
        ((⌊h2⌋ : ℤ) : ℚ) ≤ (((a.length : ℤ) - 1 : ℤ) : ℚ))
    have hi2lt : ⌊h2⌋.toNat < a.length := by omega
    have hmid : a.getD ⌈h1⌉.toNat 0 ≤ a.getD ⌊h2⌋.toNat 0 :=
      sortedGetDMono a hs (Int.toNat_le_toNat hc) hi2lt
    linarith
  · push_neg at hc
    have hflm : ⌊h1⌋ ≤ ⌊h2⌋ := Int.floor_mono h12
    have hcle1 : ⌈h1⌉ ≤ ⌊h1⌋ + 1 := Int.ceil_le_floor_add_one h1
    have hfeq : ⌊h2⌋ = ⌊h1⌋ := by omega
    have hceq1 : ⌈h1⌉ = ⌊h1⌋ + 1 := by omega
    have hcm : ⌈h1⌉ ≤ ⌈h2⌉ := Int.ceil_mono h12
    have hcle2 : ⌈h2⌉ ≤ ⌊h2⌋ + 1 := Int.ceil_le_floor_add_one h2
    have hceq2 : ⌈h2⌉ = ⌊h1⌋ + 1 := by omega
    rw [hfeq, hceq1, hceq2]
    have hjle : ⌊h1⌋ + 1 ≤ (a.length : ℤ) - 1 := by
      rw [← hceq1]
      rw [Int.ceil_le]
      push_cast
      linarith
    have hjlt : (⌊h1⌋ + 1).toNat < a.length := by omega
    have hgap : a.getD ⌊h1⌋.toNat 0 ≤ a.getD (⌊h1⌋ + 1).toNat 0 :=
      sortedGetDMono a hs (Int.toNat_le_toNat (by omega)) hjlt
    have hstep : (h1 - (⌊h1⌋.toNat : ℚ)) * (a.getD (⌊h1⌋ + 1).toNat 0 - a.getD ⌊h1⌋.toNat 0) ≤
        (h2 - (⌊h1⌋.toNat : ℚ)) * (a.getD (⌊h1⌋ + 1).toNat 0 - a.getD ⌊h1⌋.toNat 0) :=
      mul_le_mul_of_nonneg_right (by linarith) (sub_nonneg.mpr hgap)
    linarith

/-- C7: for every pooled sample of a region and lead, the Builder's
empirical 1/3 quantile `f_lowmid` never exceeds its empirical 2/3 quantile
`f_midhigh`: the linear-interpolation quantile is monotone in the quantile
level on the sorted sample. -/
theorem C7_f_lowmid_le_f_midhigh (xs : List ℚ) (hne : xs ≠ []) :
    f_lowmid xs ≤ f_midhigh xs := by
  unfold f_lowmid f_midhigh npQuantile
  have hs : (xs.insertionSort (· ≤ ·)).Sorted (· ≤ ·) := List.sorted_insertionSort _ xs
  have hn : 1 ≤ (xs.insertionSort (· ≤ ·)).length := by
    rw [List.length_insertionSort]
    exact List.length_pos.mpr hne
  exact npQuantileSortedMono _ hs hn (1 / 3) (2 / 3) (by norm_num) (by norm_num) (by norm_num)

/-- Witness for C7 on the pooled sample [3, 1, 2]. -/
theorem C7_f_lowmid_le_f_midhigh_witness :
    ([3, 1, 2] : List ℚ) ≠ [] ∧ f_lowmid [3, 1, 2] ≤ f_midhigh [3, 1, 2] :=
  ⟨by simp, C7_f_lowmid_le_f_midhigh [3, 1, 2] (by simp)⟩

end Mom6
